import Mathlib

/-!
Verification of the flashcard application's spaced-repetition core and CSV
import/export against its specification.

Modelling conventions (shallow embedding of the TypeScript source):
* JavaScript numbers are modelled as exact rationals (`ℚ`); the algorithm uses
  only `+`, `-`, `*`, `Math.max`, `Math.min` and `Math.round` on small decimal
  constants, for which rational arithmetic is the intended semantics.
* `Math.round x` is `⌊x + 1/2⌋` (JavaScript rounds halves toward +∞).
* Timestamps are day-resolution rationals; `d.setDate(d.getDate() + n)`
  (calendar-day addition) is modelled as `+ n` on the day count.
* The ambient clock read `new Date()` inside `calculateNextReview` is made
  explicit as an extra argument `ambientNow`; the source function itself has no
  such parameter, it reads the clock internally.
* JavaScript strings are modelled as `List Char`.
-/

/-! ## Spaced-repetition scheduler (src/unnamed/part_000, `spacedRepetition`) -/

inductive Difficulty
  | again
  | hard
  | good
  | easy
deriving DecidableEq

structure SpacedRepetitionResult where
  ease_factor : ℚ
  interval : ℚ
  repetitions : ℤ
  next_review : ℚ
deriving DecidableEq

/-- JavaScript `Math.round`: round half toward positive infinity. -/
def jsRound (x : ℚ) : ℚ := ((⌊x + 1/2⌋ : ℤ) : ℚ)

/-- Embedding of `calculateNextReview(currentEase, currentInterval,
currentRepetitions, difficulty)`.  The switch updates a working copy of
(ease, interval, repetitions); afterwards the source reads the ambient clock
(`new Date()`) — made explicit here as `ambientNow` — and sets
`next_review` to that instant plus the new interval in calendar days. -/
def calculateNextReview (currentEase currentInterval : ℚ) (currentRepetitions : ℤ)
    (difficulty : Difficulty) (ambientNow : ℚ) : SpacedRepetitionResult :=
  let step : ℚ × ℚ × ℤ :=
    match difficulty with
    | .again => (max (13/10) (currentEase - 1/5), 1, 0)
    | .hard => (max (13/10) (currentEase - 3/20), jsRound (currentInterval * (6/5)),
        currentRepetitions + 1)
    | .good => (currentEase, jsRound (currentInterval * currentEase), currentRepetitions + 1)
    | .easy => (min (5/2) (currentEase + 3/20), jsRound (currentInterval * currentEase * (13/10)),
        currentRepetitions + 1)
  { ease_factor := step.1
    interval := step.2.1
    repetitions := step.2.2
    next_review := ambientNow + step.2.1 }

lemma one_le_jsRound {x : ℚ} (h : 1/2 ≤ x) : 1 ≤ jsRound x := by
  unfold jsRound
  have : (1 : ℤ) ≤ ⌊x + 1/2⌋ := by
    rw [Int.le_floor]
    push_cast
    linarith
  exact_mod_cast this

lemma jsRound_mono {x y : ℚ} (h : x ≤ y) : jsRound x ≤ jsRound y := by
  unfold jsRound
  exact_mod_cast Int.floor_le_floor (by linarith)

/-- C1: rating `again` resets the interval to 1 day and the repetition streak
to 0, and decreases the ease factor by 0.2 clamped below at 1.3. -/
theorem again_resets_state (e i : ℚ) (r : ℤ) (now : ℚ)
    (he1 : 13/10 ≤ e) (he2 : e ≤ 5/2) (hi : 1 ≤ i) (hr : 0 ≤ r) :
    (calculateNextReview e i r .again now).interval = 1 ∧
    (calculateNextReview e i r .again now).repetitions = 0 ∧
    (calculateNextReview e i r .again now).ease_factor = max (13/10) (e - 1/5) := by
  refine ⟨rfl, rfl, rfl⟩

theorem again_resets_state_witness :
    ((13/10 : ℚ) ≤ 5/2 ∧ (5/2 : ℚ) ≤ 5/2 ∧ (1 : ℚ) ≤ 1 ∧ (0 : ℤ) ≤ 0) ∧
    ((calculateNextReview (5/2) 1 0 .again 0).interval = 1 ∧
     (calculateNextReview (5/2) 1 0 .again 0).repetitions = 0 ∧
     (calculateNextReview (5/2) 1 0 .again 0).ease_factor = max (13/10) ((5/2) - 1/5)) :=
  ⟨by norm_num,
   again_resets_state (5/2) 1 0 0 (by norm_num) (by norm_num) (by norm_num) (by norm_num)⟩

/-- C2: for every rating, the updated ease factor stays within [1.3, 2.5]
whenever the input ease factor is within [1.3, 2.5]. -/
theorem ease_factor_in_bounds (e i : ℚ) (r : ℤ) (d : Difficulty) (now : ℚ)
    (he1 : 13/10 ≤ e) (he2 : e ≤ 5/2) :
    13/10 ≤ (calculateNextReview e i r d now).ease_factor ∧
    (calculateNextReview e i r d now).ease_factor ≤ 5/2 := by
  cases d <;> simp only [calculateNextReview]
  · exact ⟨le_max_left _ _, max_le (by norm_num) (by linarith)⟩
  · exact ⟨le_max_left _ _, max_le (by norm_num) (by linarith)⟩
  · exact ⟨he1, he2⟩
  · exact ⟨le_min (by norm_num) (by linarith), min_le_left _ _⟩

theorem ease_factor_in_bounds_witness :
    ((13/10 : ℚ) ≤ 13/10 ∧ (13/10 : ℚ) ≤ 5/2) ∧
    (13/10 ≤ (calculateNextReview (13/10) 1 0 .hard 0).ease_factor ∧
     (calculateNextReview (13/10) 1 0 .hard 0).ease_factor ≤ 5/2) :=
  ⟨by norm_num, ease_factor_in_bounds (13/10) 1 0 .hard 0 (by norm_num) (by norm_num)⟩

/-- C3: for every rating, the updated interval is at least one day whenever the
input state is valid (ease in [1.3, 2.5], interval at least 1). -/
theorem interval_at_least_one (e i : ℚ) (r : ℤ) (d : Difficulty) (now : ℚ)
    (he1 : 13/10 ≤ e) (he2 : e ≤ 5/2) (hi : 1 ≤ i) :
    1 ≤ (calculateNextReview e i r d now).interval := by
  cases d <;> simp only [calculateNextReview]
  · norm_num
  · exact one_le_jsRound (by nlinarith)
  · exact one_le_jsRound (by nlinarith)
  · exact one_le_jsRound (by nlinarith)

theorem interval_at_least_one_witness :
    ((13/10 : ℚ) ≤ 5/2 ∧ (5/2 : ℚ) ≤ 5/2 ∧ (1 : ℚ) ≤ 1) ∧
    1 ≤ (calculateNextReview (5/2) 1 0 .good 0).interval :=
  ⟨by norm_num, interval_at_least_one (5/2) 1 0 .good 0 (by norm_num) (by norm_num) (by norm_num)⟩

/-- C4: for a fixed state with ease factor above 1.3 and positive interval, the
new interval is ordered: rating `easy` gives at least as many days as `good`,
which gives at least as many days as `hard`. -/
theorem interval_monotone_in_rating (e i : ℚ) (r : ℤ) (now : ℚ)
    (he : 13/10 < e) (hi : 0 < i) :
    (calculateNextReview e i r .good now).interval ≤
      (calculateNextReview e i r .easy now).interval ∧
    (calculateNextReview e i r .hard now).interval ≤
      (calculateNextReview e i r .good now).interval := by
  constructor
  · exact jsRound_mono (by nlinarith)
  · exact jsRound_mono (by nlinarith)

theorem interval_monotone_in_rating_witness :
    ((13/10 : ℚ) < 2 ∧ (0 : ℚ) < 10) ∧
    ((calculateNextReview 2 10 0 .good 0).interval ≤
       (calculateNextReview 2 10 0 .easy 0).interval ∧
     (calculateNextReview 2 10 0 .hard 0).interval ≤
       (calculateNextReview 2 10 0 .good 0).interval) :=
  ⟨by norm_num, interval_monotone_in_rating 2 10 0 0 (by norm_num) (by norm_num)⟩

/-- C7 counterexample: the source function reads the clock internally
(`new Date()` inside `calculateNextReview`); `now` is not one of its
parameters.  Two calls with identical caller-supplied inputs (state and
rating) but different ambient instants return different results. -/
theorem calculateNextReview_depends_on_ambient_clock :
    calculateNextReview (5/2) 1 0 .good 0 ≠ calculateNextReview (5/2) 1 0 .good 1 := by
  intro h
  have h2 := congrArg SpacedRepetitionResult.next_review h
  simp only [calculateNextReview, jsRound] at h2
  norm_num at h2

/-- C7 amended: the memory-state components (ease factor, interval,
repetitions) are deterministic functions of the state and rating alone — only
`next_review` depends on the internally read ambient clock. -/
theorem calculateNextReview_memory_fields_clock_free (e i : ℚ) (r : ℤ) (d : Difficulty)
    (t1 t2 : ℚ) :
    (calculateNextReview e i r d t1).ease_factor = (calculateNextReview e i r d t2).ease_factor ∧
    (calculateNextReview e i r d t1).interval = (calculateNextReview e i r d t2).interval ∧
    (calculateNextReview e i r d t1).repetitions =
      (calculateNextReview e i r d t2).repetitions := by
  cases d <;> exact ⟨rfl, rfl, rfl⟩

/-- C8 counterexample: on a state violating the entry invariants (negative
interval), the scheduler does not fail with any error — it performs the normal
update and returns a complete result, whose interval even violates the
`intervalDays ≥ 1` invariant. -/
theorem calculateNextReview_accepts_invalid_state :
    calculateNextReview (5/2) (-5) 0 .good 0 =
      { ease_factor := 5/2, interval := -12, repetitions := 1, next_review := -12 } ∧
    (calculateNextReview (5/2) (-5) 0 .good 0).interval < 1 := by
  constructor
  · simp only [calculateNextReview, jsRound]
    norm_num
  · simp only [calculateNextReview, jsRound]
    norm_num

/-- C8 amended: the scheduler never fails.  The rating type is a closed
enumeration (other values are unrepresentable), no entry validation is
performed, and for every input — valid or not — the function returns a complete
result: repetitions reset to 0 on `again` and incremented otherwise, and
`next_review` equal to the ambient instant plus the new interval. -/
theorem calculateNextReview_never_fails (e i : ℚ) (r : ℤ) (d : Difficulty) (now : ℚ) :
    (calculateNextReview e i r d now).repetitions =
      (if d = Difficulty.again then 0 else r + 1) ∧
    (calculateNextReview e i r d now).next_review =
      now + (calculateNextReview e i r d now).interval := by
  cases d <;> simp [calculateNextReview]

/-! ## Data model and due-card selection (src/src/components/study/SpacedMode.tsx) -/

inductive CardType
  | term
  | question
deriving DecidableEq

structure Card where
  id : String
  set_id : String
  front : List Char
  back : List Char
  card_type : CardType
  order_index : ℤ
  created_at : String
deriving DecidableEq

structure CardProgress where
  id : String
  card_id : String
  ease_factor : ℚ
  interval : ℚ
  repetitions : ℤ
  next_review : ℚ
  last_reviewed : Option ℚ
deriving DecidableEq

/-- The default `card_progress` row created by `insert({ card_id })`, from the
`CREATE TABLE public.card_progress` statement in src/unnamed/part_003 (lines
117–126): `id` defaults to `gen_random_uuid()` — a database-generated value,
taken here as the parameter `generatedId` — `ease_factor` to 2.5, `interval`
to 1, `repetitions` to 0, `next_review` to `NOW()` — the instant the insert
executes, the parameter `insertedAt` — and `last_reviewed` is a nullable
column with no default (NULL). -/
def defaultCardProgress (generatedId cardId : String) (insertedAt : ℚ) : CardProgress :=
  { id := generatedId
    card_id := cardId
    ease_factor := 5/2
    interval := 1
    repetitions := 0
    next_review := insertedAt
    last_reviewed := none }

/-- Embedding of the `loadDueCards` loop in SpacedMode.tsx.  `progressOf` is
the snapshot of `card_progress` rows joined to each card by the initial query;
`mkDefault` is the row produced by the database for an
`insert({ card_id })` call.  The first component of the result is the due list
built in input order; the second component records, in order, every
`card_progress` row the loop inserts into the external store. -/
def loadDueCards (cards : List Card) (progressOf : String → Option CardProgress)
    (mkDefault : String → CardProgress) (now : ℚ) :
    List (Card × CardProgress) × List CardProgress :=
  match cards with
  | [] => ([], [])
  | card :: rest =>
    let current : CardProgress × List CardProgress :=
      match progressOf card.id with
      | some p => (p, [])
      | none => (mkDefault card.id, [mkDefault card.id])
    let restResult := loadDueCards rest progressOf mkDefault now
    (if current.1.next_review ≤ now then (card, current.1) :: restResult.1 else restResult.1,
     current.2 ++ restResult.2)

/-- C5: the due list contains exactly the input cards whose (possibly freshly
defaulted) memory state has `next_review ≤ now` — the comparison is inclusive,
so a card due exactly at `now` is selected — each paired with that state, and
the input order is preserved (the result is a filter of the input sequence,
never re-sorted). -/
theorem loadDueCards_selects_exactly_due (cards : List Card)
    (progressOf : String → Option CardProgress) (mkDefault : String → CardProgress) (now : ℚ) :
    (loadDueCards cards progressOf mkDefault now).1 =
      (cards.map (fun c => (c, (progressOf c.id).getD (mkDefault c.id)))).filter
        (fun pr => decide (pr.2.next_review ≤ now)) := by
  induction cards with
  | nil => rfl
  | cons card rest ih =>
    simp only [loadDueCards, List.map_cons, List.filter_cons]
    cases hp : progressOf card.id
    case none =>
      by_cases hd : (mkDefault card.id).next_review ≤ now <;> simp [hp, hd, ih]
    case some p =>
      by_cases hd : p.next_review ≤ now <;> simp [hp, hd, ih]

/-- A concrete card that has no `card_progress` row in the store below. -/
def sampleStatelessCard : Card :=
  { id := "c1"
    set_id := "s1"
    front := ['a']
    back := ['b']
    card_type := .term
    order_index := 0
    created_at := "" }

/-- C6 counterexample: the selector does write to the external store.  For a
card with no `card_progress` row, `loadDueCards` itself inserts the synthesized
default row (the recorded insertion list is nonempty), contradicting the claim
that the selector never persists the default.  The inserted row is the
schema-default `card_progress` row with a database-generated id. -/
theorem loadDueCards_persists_default_state :
    (loadDueCards [sampleStatelessCard]
      (fun _ => none) (fun i => defaultCardProgress "3c0e36f2" i 0) 0).2 ≠ [] := by
  simp [loadDueCards]

/-- C6 amended: the due-selection operation is not side-effect free — during
selection it inserts into the external store exactly one default MemoryState
row for each input card lacking a `card_progress` entry, in input order;
cards that already have an entry cause no write. -/
theorem loadDueCards_inserts_exactly_missing (cards : List Card)
    (progressOf : String → Option CardProgress) (mkDefault : String → CardProgress) (now : ℚ) :
    (loadDueCards cards progressOf mkDefault now).2 =
      (cards.filter (fun c => (progressOf c.id).isNone)).map (fun c => mkDefault c.id) := by
  induction cards with
  | nil => rfl
  | cons card rest ih =>
    simp only [loadDueCards, List.filter_cons]
    cases hp : progressOf card.id <;> simp [hp, ih]

/-! ## CSV export and the two CSV parsers

The repository contains two different `parseCSV` implementations: a simple one
in `src/src/lib/csvUtils.ts` (first-comma split, no header skip, always
`card_type = 'term'`) and a quoted-cell one in `src/unnamed/part_000`
(regex `/(?:^|,)("(?:[^"]|"")*"|[^,]*)/g`, header row skipped, type read from a
third column).  Strings are `List Char`; `String.prototype.trim` is modelled on
the common whitespace characters. -/

def wsChar (c : Char) : Bool := decide (c = ' ' ∨ c = '\t' ∨ c = '\n' ∨ c = '\r')

def trimLeft (l : List Char) : List Char := l.dropWhile wsChar

def trimRight (l : List Char) : List Char := (l.reverse.dropWhile wsChar).reverse

def trim (l : List Char) : List Char := trimRight (trimLeft l)

/-- JavaScript `text.split('\n')`. -/
def splitNl : List Char → List (List Char)
  | [] => [[]]
  | c :: rest =>
    if c = '\n' then [] :: splitNl rest
    else
      match splitNl rest with
      | [] => [[c]]
      | l :: ls => (c :: l) :: ls

/-- JavaScript `Array.prototype.join(sep)`. -/
def joinWith (sep : List Char) : List (List Char) → List Char
  | [] => []
  | [l] => l
  | l :: ls => l ++ sep ++ joinWith sep ls

structure ParsedCard where
  front : List Char
  back : List Char
  card_type : CardType
deriving DecidableEq

/-- JavaScript `cell.replace(/"/g, '""')` from `exportToCSV`. -/
def escapeQuotes : List Char → List Char
  | [] => []
  | c :: rest => if c = '"' then '"' :: '"' :: escapeQuotes rest else c :: escapeQuotes rest

/-- One exported cell: `"${cell.replace(/"/g, '""')}"`. -/
def quoteCell (cell : List Char) : List Char := '"' :: (escapeQuotes cell ++ ['"'])

def ctypeStr : CardType → List Char
  | .term => "term".toList
  | .question => "question".toList

def headerLine : List Char := "Front,Back,Type".toList

/-- One exported row: the three quoted cells joined with commas. -/
def exportRow (front back : List Char) (t : CardType) : List Char :=
  joinWith [','] [quoteCell front, quoteCell back, quoteCell (ctypeStr t)]

/-- The `csvContent` string built by `exportToCSV` (the subsequent Blob / DOM
download of that string is outside the data model): header line and one row
per card, joined with newlines. -/
def exportContent (cards : List Card) : List Char :=
  joinWith ['\n'] (headerLine :: cards.map (fun c => exportRow c.front c.back c.card_type))

/-- One loop iteration of the `parseCSV` in csvUtils.ts: trim the line, split
at the first comma (`indexOf`), trim both parts, keep the row if both are
nonempty; `card_type` is always `'term'`. -/
def parseSimpleLine (rawLine : List Char) : Option ParsedCard :=
  let l := trim rawLine
  if l = [] then none
  else if ',' ∈ l then
    let front := trim (l.takeWhile (fun c => decide (c ≠ ',')))
    let back := trim ((l.dropWhile (fun c => decide (c ≠ ','))).drop 1)
    if front ≠ [] ∧ back ≠ [] then some ⟨front, back, CardType.term⟩ else none
  else none

/-- The `parseCSV` of src/src/lib/csvUtils.ts: split into lines, drop blank
lines, parse every line (no header skip). -/
def parseCSV_simple (csvText : List Char) : List ParsedCard :=
  ((splitNl csvText).filter (fun l => decide (trim l ≠ []))).filterMap parseSimpleLine

/-- Matching of the quoted-cell alternative `"(?:[^"]|"")*"` after its opening
quote, with the backtracking-greedy semantics of the JavaScript engine: prefer
consuming a non-quote character or an escaped pair `""`, fall back to treating
a quote as the closing delimiter, fail if the input ends unclosed.  Returns the
consumed characters (content plus closing quote). -/
def qtail : List Char → Option (List Char)
  | [] => none
  | c :: rest =>
    if c = '"' then
      match rest with
      | [] => some ['"']
      | d :: rest2 =>
        if d = '"' then
          match qtail rest2 with
          | some t => some ('"' :: '"' :: t)
          | none => some ['"']
        else some ['"']
    else
      match qtail rest with
      | some t => some (c :: t)
      | none => none

/-- The quoted-cell alternative `"(?:[^"]|"")*"` anchored at the current
position. -/
def tryQuoted : List Char → Option (List Char)
  | [] => none
  | c :: rest => if c = '"' then (qtail rest).map (fun t => '"' :: t) else none

/-- The capture group `("(?:[^"]|"")*"|[^,]*)`: the quoted alternative is
preferred; `[^,]*` always succeeds (possibly empty). -/
def matchGroup (s : List Char) : List Char :=
  match tryQuoted s with
  | some q => q
  | none => s.takeWhile (fun c => decide (c ≠ ','))

/-- One attempt of `(?:^|,)("(?:[^"]|"")*"|[^,]*)` at the current position:
`^` is a zero-width success at position 0, otherwise a literal comma is
required. -/
def matchAt (atStart : Bool) (s : List Char) : Option (List Char) :=
  if atStart then some (matchGroup s)
  else
    match s with
    | [] => none
    | c :: rest => if c = ',' then some (',' :: matchGroup rest) else none

/-- JavaScript `line.match(/(?:^|,)("(?:[^"]|"")*"|[^,]*)/g)`: scan left to
right; a successful nonempty match resumes after the match, an empty match
advances one position, a failed position advances one position. -/
def scanMatches (atStart : Bool) (s : List Char) : List (List Char) :=
  match s with
  | [] => if atStart then [[]] else []
  | c :: rest =>
    match matchAt atStart (c :: rest) with
    | none => scanMatches false rest
    | some [] => [] :: scanMatches false rest
    | some (m :: ms) => (m :: ms) :: scanMatches false ((c :: rest).drop (m :: ms).length)
termination_by s.length
decreasing_by
  all_goals simp only [List.length_cons, List.length_drop]
  all_goals omega

/-- JavaScript `val.replace(/^,/, '')`. -/
def removeLeadingComma : List Char → List Char
  | [] => []
  | c :: rest => if c = ',' then rest else c :: rest

/-- JavaScript `.replace(/""/g, '"')`. -/
def collapseQuotes : List Char → List Char
  | [] => []
  | c :: rest =>
    if c = '"' then
      match rest with
      | [] => ['"']
      | d :: rest2 =>
        if d = '"' then '"' :: collapseQuotes rest2 else '"' :: collapseQuotes (d :: rest2)
    else c :: collapseQuotes rest

/-- Cleaning of one raw regex match in the part_000 `parseCSV`: strip one
leading comma, trim, and if the result is quoted at both ends, unquote it and
collapse doubled quotes. -/
def cleanVal (v : List Char) : List Char :=
  let cleaned := trim (removeLeadingComma v)
  if cleaned.head? = some '"' ∧ cleaned.getLast? = some '"' then
    collapseQuotes ((cleaned.drop 1).dropLast)
  else cleaned

/-- One loop iteration of the part_000 `parseCSV`: regex-match the cells, skip
the line when fewer than two matches, clean every match, read the card type
from the third value (`'question'` case-insensitively, else `'term'`), keep
the row if front and back are nonempty. -/
def parseQuotedLine (line : List Char) : Option ParsedCard :=
  let ms := scanMatches true line
  if ms.length < 2 then none
  else
    let values := ms.map cleanVal
    let front := values.getD 0 []
    let back := values.getD 1 []
    let ctype :=
      match values.drop 2 with
      | t :: _ =>
        if t.map Char.toLower = "question".toList then CardType.question else CardType.term
      | [] => CardType.term
    if front ≠ [] ∧ back ≠ [] then some ⟨front, back, ctype⟩ else none

/-- The `parseCSV` of src/unnamed/part_000: split into lines, drop blank
lines, skip the header row (loop starts at index 1), parse the rest. -/
def parseCSV_quoted (csvText : List Char) : List ParsedCard :=
  (((splitNl csvText).filter (fun l => decide (trim l ≠ []))).drop 1).filterMap parseQuotedLine

/-! ### Helper lemmas about trimming, line splitting and joining -/

lemma trim_ne_nil_of_mem {l : List Char} {c : Char} (hc : c ∈ l) (hw : wsChar c = false) :
    trim l ≠ [] := by
  intro h
  have h1 : (trimLeft l).reverse.dropWhile wsChar = [] := by
    have := congrArg List.reverse h
    simpa [trim, trimRight] using this
  have h2 : ∀ x ∈ trimLeft l, wsChar x := by
    intro x hx
    exact List.dropWhile_eq_nil_iff.mp h1 x (List.mem_reverse.mpr hx)
  have h3 : ∀ x ∈ l.takeWhile wsChar, wsChar x := by
    intro x hx
    exact List.all_eq_true.mp List.all_takeWhile x hx
  have h4 : wsChar c = true := by
    rw [← List.takeWhile_append_dropWhile wsChar l] at hc
    rcases List.mem_append.mp hc with h | h
    · exact h3 c h
    · exact h2 c h
  rw [h4] at hw
  cases hw

lemma dropWhile_ws_of_trimLeft {f : List Char} (h : trimLeft f = f) :
    f.dropWhile wsChar = f := h

lemma dropWhile_ws_reverse_of_trimRight {f : List Char} (h : trimRight f = f) :
    f.reverse.dropWhile wsChar = f.reverse := by
  have := congrArg List.reverse h
  simpa [trimRight] using this

lemma trim_eq_of_ends {f : List Char} (h1 : trimLeft f = f) (h2 : trimRight f = f) :
    trim f = f := by
  simp [trim, h1, h2]

lemma trimLeft_append_comma {f b : List Char} (hf : f ≠ []) (hfL : trimLeft f = f) :
    trimLeft (f ++ ',' :: b) = f ++ ',' :: b := by
  unfold trimLeft
  rw [List.dropWhile_append, dropWhile_ws_of_trimLeft hfL]
  simp [hf]

lemma trimRight_append_comma {f b : List Char} (hb : b ≠ []) (hbR : trimRight b = b) :
    trimRight (f ++ ',' :: b) = f ++ ',' :: b := by
  unfold trimRight
  have hrev : (f ++ ',' :: b).reverse = b.reverse ++ ',' :: f.reverse := by
    simp
  rw [hrev, List.dropWhile_append, dropWhile_ws_reverse_of_trimRight hbR]
  simp [hb]

lemma trim_append_comma {f b : List Char} (hf : f ≠ []) (hb : b ≠ [])
    (hfL : trimLeft f = f) (hbR : trimRight b = b) :
    trim (f ++ ',' :: b) = f ++ ',' :: b := by
  rw [trim, trimLeft_append_comma hf hfL, trimRight_append_comma hb hbR]

lemma splitNl_ne_nil (s : List Char) : splitNl s ≠ [] := by
  induction s with
  | nil => simp [splitNl]
  | cons c rest ih =>
    simp only [splitNl]
    split
    · simp
    · split
      · simp
      · simp

lemma splitNl_no_nl {l : List Char} (h : '\n' ∉ l) : splitNl l = [l] := by
  induction l with
  | nil => rfl
  | cons c rest ih =>
    have hc : ¬c = '\n' := fun e => h (by simp [e])
    have hr : '\n' ∉ rest := fun m => h (List.mem_cons_of_mem _ m)
    simp only [splitNl, if_neg hc, ih hr]

lemma splitNl_append {l t : List Char} (h : '\n' ∉ l) :
    splitNl (l ++ '\n' :: t) = l :: splitNl t := by
  induction l with
  | nil => simp [splitNl]
  | cons c rest ih =>
    have hc : ¬c = '\n' := fun e => h (by simp [e])
    have hr : '\n' ∉ rest := fun m => h (List.mem_cons_of_mem _ m)
    simp only [List.cons_append, splitNl, if_neg hc, List.append_eq, ih hr]

lemma splitNl_joinWith : ∀ (L : List (List Char)), L ≠ [] → (∀ l ∈ L, '\n' ∉ l) →
    splitNl (joinWith ['\n'] L) = L
  | [], h, _ => absurd rfl h
  | [l], _, h => by
    simp only [joinWith]
    exact splitNl_no_nl (h l (by simp))
  | l :: l2 :: ls, _, h => by
    have hj : joinWith ['\n'] (l :: l2 :: ls) = l ++ '\n' :: joinWith ['\n'] (l2 :: ls) := by
      simp [joinWith]
    rw [hj, splitNl_append (h l (by simp)),
      splitNl_joinWith (l2 :: ls) (by simp) (fun x hx => h x (List.mem_cons_of_mem _ hx))]

lemma filterMap_eq_map_of_some {α β : Type} {f : α → Option β} {g : α → β} :
    ∀ {l : List α}, (∀ a ∈ l, f a = some (g a)) → l.filterMap f = l.map g
  | [], _ => rfl
  | a :: l, h => by
    rw [List.filterMap_cons, h a (by simp), List.map_cons,
      filterMap_eq_map_of_some (fun x hx => h x (List.mem_cons_of_mem _ hx))]

/-! ### Helper lemmas about the exported cells and the quoted-cell regex -/

lemma mem_escapeQuotes {c : Char} {f : List Char} (h : c ∈ escapeQuotes f) :
    c ∈ f ∨ c = '"' := by
  induction f with
  | nil => simp [escapeQuotes] at h
  | cons a f ih =>
    by_cases ha : a = '"'
    · subst ha
      simp only [escapeQuotes, if_pos rfl] at h
      rcases List.mem_cons.mp h with h | h
      · exact Or.inr h
      · rcases List.mem_cons.mp h with h | h
        · exact Or.inr h
        · rcases ih h with h2 | h2
          · exact Or.inl (List.mem_cons_of_mem _ h2)
          · exact Or.inr h2
    · simp only [escapeQuotes, if_neg ha] at h
      rcases List.mem_cons.mp h with h | h
      · exact Or.inl (by simp [h])
      · rcases ih h with h2 | h2
        · exact Or.inl (List.mem_cons_of_mem _ h2)
        · exact Or.inr h2

lemma mem_quoteCell {c : Char} {f : List Char} (h : c ∈ quoteCell f) :
    c ∈ f ∨ c = '"' := by
  simp only [quoteCell] at h
  rcases List.mem_cons.mp h with h | h
  · exact Or.inr h
  · rcases List.mem_append.mp h with h | h
    · exact mem_escapeQuotes h
    · exact Or.inr (by simpa using h)

lemma exportRow_eq (f b : List Char) (t : CardType) :
    exportRow f b t = quoteCell f ++ ',' :: (quoteCell b ++ ',' :: quoteCell (ctypeStr t)) := by
  simp [exportRow, joinWith]

lemma nl_not_mem_ctypeStr (t : CardType) : '\n' ∉ ctypeStr t := by
  cases t <;> decide

lemma nl_not_mem_quoteCell {f : List Char} (h : '\n' ∉ f) : '\n' ∉ quoteCell f := by
  intro hm
  rcases mem_quoteCell hm with h1 | h1
  · exact h h1
  · exact absurd h1 (by decide)

lemma nl_not_mem_exportRow {f b : List Char} (t : CardType) (hf : '\n' ∉ f) (hb : '\n' ∉ b) :
    '\n' ∉ exportRow f b t := by
  rw [exportRow_eq]
  intro hm
  rcases List.mem_append.mp hm with h | h
  · exact nl_not_mem_quoteCell hf h
  · rcases List.mem_cons.mp h with h | h
    · exact absurd h (by decide)
    · rcases List.mem_append.mp h with h | h
      · exact nl_not_mem_quoteCell hb h
      · rcases List.mem_cons.mp h with h | h
        · exact absurd h (by decide)
        · exact nl_not_mem_quoteCell (nl_not_mem_ctypeStr t) h

lemma quote_mem_exportRow (f b : List Char) (t : CardType) : '"' ∈ exportRow f b t := by
  rw [exportRow_eq]
  exact List.mem_append.mpr (Or.inl (by simp [quoteCell]))

lemma trim_exportRow_ne_nil (f b : List Char) (t : CardType) : trim (exportRow f b t) ≠ [] :=
  trim_ne_nil_of_mem (quote_mem_exportRow f b t) (by decide)

lemma qtail_cons (c : Char) (rest : List Char) :
    qtail (c :: rest) =
      if c = '"' then
        match rest with
        | [] => some ['"']
        | d :: rest2 =>
          if d = '"' then
            match qtail rest2 with
            | some t => some ('"' :: '"' :: t)
            | none => some ['"']
          else some ['"']
      else
        match qtail rest with
        | some t => some (c :: t)
        | none => none := by
  cases rest <;> rfl

lemma qtail_escaped (f : List Char) : ∀ (rest : List Char), rest.head? ≠ some '"' →
    qtail (escapeQuotes f ++ '"' :: rest) = some (escapeQuotes f ++ ['"']) := by
  induction f with
  | nil =>
    intro rest h
    cases rest with
    | nil => rfl
    | cons d r2 =>
      have hd : ¬ d = '"' := fun e => h (by simp [e])
      simp [escapeQuotes, qtail, hd]
  | cons a f ih =>
    intro rest h
    by_cases ha : a = '"'
    · subst ha
      simp only [escapeQuotes, if_pos rfl, List.cons_append]
      simp [qtail, ih rest h]
    · simp only [escapeQuotes, if_neg ha, List.cons_append]
      rw [qtail_cons, if_neg ha, ih rest h]

lemma tryQuoted_quoteCell (f rest : List Char) (h : rest.head? ≠ some '"') :
    tryQuoted (quoteCell f ++ rest) = some (quoteCell f) := by
  have hshape : quoteCell f ++ rest = '"' :: (escapeQuotes f ++ '"' :: rest) := by
    simp [quoteCell]
  rw [hshape, tryQuoted]
  simp only [if_pos rfl, qtail_escaped f rest h, Option.map_some']
  simp [quoteCell]

lemma matchGroup_quoteCell (f rest : List Char) (h : rest.head? ≠ some '"') :
    matchGroup (quoteCell f ++ rest) = quoteCell f := by
  rw [matchGroup, tryQuoted_quoteCell f rest h]

lemma matchGroup_plain {s : List Char} (h : s.head? ≠ some '"') :
    matchGroup s = s.takeWhile (fun c => decide (c ≠ ',')) := by
  cases s with
  | nil => rfl
  | cons c rest =>
    have hc : ¬ c = '"' := fun e => h (by simp [e])
    simp [matchGroup, tryQuoted, hc]

lemma takeWhile_all {p : Char → Bool} {l : List Char} (h : ∀ a ∈ l, p a = true) :
    l.takeWhile p = l := by
  induction l with
  | nil => rfl
  | cons a t ih =>
    rw [List.takeWhile_cons_of_pos (h a (by simp))]
    rw [ih (fun x hx => h x (List.mem_cons_of_mem _ hx))]

lemma scanMatches_false_nil : scanMatches false [] = [] := by
  rw [scanMatches]
  simp

lemma scanMatches_step {atStart : Bool} {c : Char} {cs m : List Char}
    (hm : matchAt atStart (c :: cs) = some m) (hne : m ≠ []) :
    scanMatches atStart (c :: cs) = m :: scanMatches false ((c :: cs).drop m.length) := by
  cases m with
  | nil => exact absurd rfl hne
  | cons m0 mrest => rw [scanMatches, hm]

lemma head_comma_ne_quote (rest : List Char) : (',' :: rest).head? ≠ some '"' := by
  intro hc
  exact absurd (Option.some.inj hc) (by decide)

lemma scanMatches_quote_comma (f rest : List Char) :
    scanMatches true (quoteCell f ++ ',' :: rest) =
      quoteCell f :: scanMatches false (',' :: rest) := by
  have hm : matchAt true (quoteCell f ++ ',' :: rest) = some (quoteCell f) := by
    simp [matchAt, matchGroup_quoteCell f (',' :: rest) (head_comma_ne_quote rest)]
  have hne : quoteCell f ≠ [] := by simp [quoteCell]
  have hshape : quoteCell f ++ ',' :: rest = '"' :: (escapeQuotes f ++ '"' :: ',' :: rest) := by
    simp [quoteCell]
  rw [hshape] at hm
  rw [hshape, scanMatches_step hm hne]
  rw [← hshape, List.drop_left]

lemma scanMatches_comma_quote (f rest : List Char) (hr : rest.head? ≠ some '"') :
    scanMatches false (',' :: (quoteCell f ++ rest)) =
      (',' :: quoteCell f) :: scanMatches false rest := by
  have hm : matchAt false (',' :: (quoteCell f ++ rest)) = some (',' :: quoteCell f) := by
    simp [matchAt, matchGroup_quoteCell f rest hr]
  have hne : (',' :: quoteCell f) ≠ [] := by simp
  rw [scanMatches_step hm hne]
  have hshape : ',' :: (quoteCell f ++ rest) = (',' :: quoteCell f) ++ rest := by simp
  rw [show ((',' :: (quoteCell f ++ rest)).drop (',' :: quoteCell f).length) = rest by
    rw [hshape]; exact List.drop_left _ _]

/-! ### Helper lemmas about cell cleaning and the export round-trip -/

lemma trim_quote_shape (m : List Char) : trim ('"' :: (m ++ ['"'])) = '"' :: (m ++ ['"']) := by
  apply trim_eq_of_ends
  · unfold trimLeft
    exact List.dropWhile_cons_of_neg (by decide)
  · unfold trimRight
    rw [show ('"' :: (m ++ ['"'])).reverse = '"' :: (m.reverse ++ ['"']) by simp]
    rw [List.dropWhile_cons_of_neg (by decide)]
    simp

lemma collapseQuotes_cons (c : Char) (rest : List Char) :
    collapseQuotes (c :: rest) =
      if c = '"' then
        match rest with
        | [] => ['"']
        | d :: rest2 =>
          if d = '"' then '"' :: collapseQuotes rest2 else '"' :: collapseQuotes (d :: rest2)
      else c :: collapseQuotes rest := by
  cases rest <;> rfl

lemma escapeQuotes_cons (c : Char) (f : List Char) :
    escapeQuotes (c :: f) =
      if c = '"' then '"' :: '"' :: escapeQuotes f else c :: escapeQuotes f := rfl

lemma collapseQuotes_escapeQuotes (f : List Char) : collapseQuotes (escapeQuotes f) = f := by
  induction f with
  | nil => rfl
  | cons a f ih =>
    by_cases ha : a = '"'
    · subst ha
      rw [escapeQuotes_cons, if_pos rfl]
      rw [collapseQuotes_cons, if_pos rfl]
      simp [ih]
    · rw [escapeQuotes_cons, if_neg ha]
      rw [collapseQuotes_cons, if_neg ha, ih]

lemma removeLeadingComma_of_head {v : List Char} (h : v.head? ≠ some ',') :
    removeLeadingComma v = v := by
  cases v with
  | nil => rfl
  | cons c rest =>
    have hc : ¬ c = ',' := fun e => h (by simp [e])
    simp [removeLeadingComma, hc]

lemma cleanVal_comma (v : List Char) (h : v.head? ≠ some ',') :
    cleanVal (',' :: v) = cleanVal v := by
  unfold cleanVal
  rw [show removeLeadingComma (',' :: v) = v by simp [removeLeadingComma],
    removeLeadingComma_of_head h]

lemma head_quoteCell (f : List Char) : (quoteCell f).head? = some '"' := rfl

lemma cleanVal_quoteCell (f : List Char) : cleanVal (quoteCell f) = f := by
  unfold cleanVal
  rw [removeLeadingComma_of_head (by rw [head_quoteCell]; decide)]
  simp only [quoteCell]
  rw [trim_quote_shape]
  rw [if_pos ⟨rfl, by
    rw [show ('"' :: (escapeQuotes f ++ ['"'])) = ('"' :: escapeQuotes f) ++ ['"'] by simp,
      List.getLast?_concat]⟩]
  rw [show (('"' :: (escapeQuotes f ++ ['"'])).drop 1) = escapeQuotes f ++ ['"'] from rfl]
  rw [List.dropLast_concat]
  exact collapseQuotes_escapeQuotes f

lemma cleanVal_comma_quoteCell (f : List Char) : cleanVal (',' :: quoteCell f) = f := by
  rw [cleanVal_comma (quoteCell f) (by rw [head_quoteCell]; decide), cleanVal_quoteCell]

lemma cleanVal_plain {v : List Char} (hcomma : v.head? ≠ some ',') (hq : '"' ∉ v)
    (ht : trim v = v) : cleanVal v = v := by
  have hcond : ¬(v.head? = some '"' ∧ v.getLast? = some '"') := by
    rintro ⟨h1, _⟩
    exact hq (List.mem_of_mem_head? (Option.mem_def.mpr h1))
  unfold cleanVal
  rw [removeLeadingComma_of_head hcomma, ht, if_neg hcond]

lemma ctype_decode (t : CardType) :
    (if (ctypeStr t).map Char.toLower = "question".toList then CardType.question
     else CardType.term) = t := by
  cases t <;> decide

lemma ne_nil_of_trim_ne_nil {l : List Char} (h : trim l ≠ []) : l ≠ [] := by
  intro hl
  exact h (by rw [hl]; rfl)

lemma parseQuotedLine_exportRow (f b : List Char) (t : CardType) (hf : f ≠ []) (hb : b ≠ []) :
    parseQuotedLine (exportRow f b t) = some ⟨f, b, t⟩ := by
  have hscan : scanMatches true (exportRow f b t) =
      [quoteCell f, ',' :: quoteCell b, ',' :: quoteCell (ctypeStr t)] := by
    rw [exportRow_eq]
    rw [scanMatches_quote_comma f (quoteCell b ++ ',' :: quoteCell (ctypeStr t))]
    rw [scanMatches_comma_quote b (',' :: quoteCell (ctypeStr t)) (head_comma_ne_quote _)]
    rw [show (',' :: quoteCell (ctypeStr t)) = ',' :: (quoteCell (ctypeStr t) ++ []) by
      rw [List.append_nil]]
    rw [scanMatches_comma_quote (ctypeStr t) [] (by simp)]
    rw [scanMatches_false_nil]
    simp
  unfold parseQuotedLine
  rw [hscan]
  norm_num [cleanVal_quoteCell, cleanVal_comma_quoteCell, hf, hb]
  cases t <;> decide

/-- C10: round-trip — parsing (with the part_000 `parseCSV`) the `csvContent`
built by `exportToCSV` recovers exactly the original sequence of
(front, back, card_type) triples, for every card list whose front and back
contain no newline and are nonempty after trimming; fields containing commas,
double quotes or surrounding spaces are preserved by the quoting/unquoting. -/
theorem csv_export_parse_roundtrip (cards : List Card)
    (h : ∀ c ∈ cards, ('\n' ∉ c.front ∧ '\n' ∉ c.back) ∧
      (trim c.front ≠ [] ∧ trim c.back ≠ [])) :
    parseCSV_quoted (exportContent cards) =
      cards.map (fun c => ⟨c.front, c.back, c.card_type⟩) := by
  unfold parseCSV_quoted exportContent
  rw [splitNl_joinWith (headerLine :: cards.map (fun c => exportRow c.front c.back c.card_type))
      (by simp)
      (by
        intro l hl
        rcases List.mem_cons.mp hl with hl | hl
        · subst hl; decide
        · rcases List.mem_map.mp hl with ⟨c, hc, rfl⟩
          exact nl_not_mem_exportRow c.card_type ((h c hc).1).1 ((h c hc).1).2)]
  rw [List.filter_eq_self.mpr (by
    intro l hl
    rcases List.mem_cons.mp hl with hl | hl
    · subst hl; decide
    · rcases List.mem_map.mp hl with ⟨c, _, rfl⟩
      exact decide_eq_true (trim_exportRow_ne_nil c.front c.back c.card_type))]
  rw [List.drop_succ_cons, List.drop_zero, List.filterMap_map]
  exact filterMap_eq_map_of_some (fun c hc =>
    parseQuotedLine_exportRow c.front c.back c.card_type
      (ne_nil_of_trim_ne_nil ((h c hc).2).1) (ne_nil_of_trim_ne_nil ((h c hc).2).2))

/-- A concrete card list exercising commas, double quotes and surrounding
spaces inside fields. -/
def roundTripSample : List Card :=
  [{ id := "c1"
     set_id := "s1"
     front := "a,\"x\"".toList
     back := " b ".toList
     card_type := .question
     order_index := 0
     created_at := "" }]

theorem csv_export_parse_roundtrip_witness :
    (∀ c ∈ roundTripSample, ('\n' ∉ c.front ∧ '\n' ∉ c.back) ∧
      (trim c.front ≠ [] ∧ trim c.back ≠ [])) ∧
    parseCSV_quoted (exportContent roundTripSample) =
      roundTripSample.map (fun c => ⟨c.front, c.back, c.card_type⟩) :=
  ⟨by decide, csv_export_parse_roundtrip roundTripSample (by decide)⟩

/-! ### The two parseCSV implementations compared (C9) -/

lemma trimLeft_eq_self_of_trim {f : List Char} (h : trim f = f) : trimLeft f = f := by
  have hlen1 : (trimLeft f).length ≤ f.length :=
    (List.dropWhile_sublist wsChar).length_le
  have hlen2 : (trim f).length ≤ (trimLeft f).length := by
    unfold trim trimRight
    calc ((trimLeft f).reverse.dropWhile wsChar).reverse.length
        = ((trimLeft f).reverse.dropWhile wsChar).length := by rw [List.length_reverse]
      _ ≤ (trimLeft f).reverse.length := (List.dropWhile_sublist wsChar).length_le
      _ = (trimLeft f).length := by rw [List.length_reverse]
  rw [h] at hlen2
  have hlen : (trimLeft f).length = f.length := le_antisymm hlen1 hlen2
  have hsplit := List.takeWhile_append_dropWhile wsChar f
  have htake : (f.takeWhile wsChar).length = 0 := by
    have := congrArg List.length hsplit
    rw [List.length_append] at this
    unfold trimLeft at hlen
    omega
  have htake2 : f.takeWhile wsChar = [] := List.length_eq_zero.mp htake
  calc trimLeft f = f.takeWhile wsChar ++ f.dropWhile wsChar := by
        rw [htake2]; rfl
    _ = f := hsplit

lemma trimRight_eq_self_of_trim {f : List Char} (h : trim f = f) : trimRight f = f := by
  have h1 : trimLeft f = f := trimLeft_eq_self_of_trim h
  calc trimRight f = trimRight (trimLeft f) := by rw [h1]
    _ = trim f := rfl
    _ = f := h

lemma head_ne_of_not_mem {l : List Char} {c : Char} (h : c ∉ l) : l.head? ≠ some c := by
  cases l with
  | nil => simp
  | cons a rest =>
    intro e
    simp only [List.head?_cons, Option.some.injEq] at e
    exact h (by simp [e])

lemma head?_append_of_ne_nil {f x : List Char} (hf : f ≠ []) : (f ++ x).head? = f.head? := by
  cases f with
  | nil => exact absurd rfl hf
  | cons a rest => rfl

lemma decide_ne_comma_of_mem {f : List Char} (hfc : ',' ∉ f) :
    ∀ a ∈ f, (fun c => decide (c ≠ ',')) a = true := by
  intro a ha
  simp only [decide_eq_true_eq]
  intro e
  exact hfc (e ▸ ha)

lemma takeWhile_comma_split {f b : List Char} (hfc : ',' ∉ f) :
    (f ++ ',' :: b).takeWhile (fun c => decide (c ≠ ',')) = f := by
  rw [List.takeWhile_append_of_pos (decide_ne_comma_of_mem hfc)]
  rw [List.takeWhile_cons_of_neg (by simp)]
  rw [List.append_nil]

lemma dropWhile_comma_split {f b : List Char} (hfc : ',' ∉ f) :
    (f ++ ',' :: b).dropWhile (fun c => decide (c ≠ ',')) = ',' :: b := by
  rw [List.dropWhile_append_of_pos (decide_ne_comma_of_mem hfc)]
  exact List.dropWhile_cons_of_neg (by simp)

lemma parseSimpleLine_plain {f b : List Char} (hf : f ≠ []) (hb : b ≠ [])
    (hfc : ',' ∉ f) (hbc : ',' ∉ b) (hft : trim f = f) (hbt : trim b = b) :
    parseSimpleLine (f ++ ',' :: b) = some ⟨f, b, CardType.term⟩ := by
  have htrim : trim (f ++ ',' :: b) = f ++ ',' :: b :=
    trim_append_comma hf hb (trimLeft_eq_self_of_trim hft) (trimRight_eq_self_of_trim hbt)
  unfold parseSimpleLine
  rw [htrim]
  rw [if_neg (by simp [hf])]
  rw [if_pos (List.mem_append.mpr (Or.inr (List.mem_cons_self _ _)))]
  rw [takeWhile_comma_split hfc, dropWhile_comma_split hfc, List.drop_succ_cons,
    List.drop_zero, hft, hbt]
  rw [if_pos ⟨hf, hb⟩]

lemma takeWhile_comma_all {b : List Char} (hbc : ',' ∉ b) :
    b.takeWhile (fun c => decide (c ≠ ',')) = b :=
  takeWhile_all (decide_ne_comma_of_mem hbc)

lemma scanMatches_plain_pair {f b : List Char} (hf : f ≠ []) (hb : b ≠ [])
    (hfq : '"' ∉ f) (hbq : '"' ∉ b) (hfc : ',' ∉ f) (hbc : ',' ∉ b) :
    scanMatches true (f ++ ',' :: b) = [f, ',' :: b] := by
  have hfhead : (f ++ ',' :: b).head? ≠ some '"' := by
    rw [head?_append_of_ne_nil hf]
    exact head_ne_of_not_mem hfq
  have hm1 : matchAt true (f ++ ',' :: b) = some f := by
    simp only [matchAt, if_true]
    rw [matchGroup_plain hfhead, takeWhile_comma_split hfc]
  have hm2 : matchAt false (',' :: b) = some (',' :: b) := by
    simp [matchAt, matchGroup_plain (head_ne_of_not_mem hbq), takeWhile_comma_all hbc]
    intro x hx e
    exact hbc (e ▸ hx)
  cases f with
  | nil => exact absurd rfl hf
  | cons c frest =>
    rw [List.cons_append] at hm1 ⊢
    rw [scanMatches_step hm1 (by simp)]
    rw [← List.cons_append, List.drop_left]
    rw [scanMatches_step hm2 (by simp)]
    rw [List.drop_length, scanMatches_false_nil]

lemma parseQuotedLine_plain {f b : List Char} (hf : f ≠ []) (hb : b ≠ [])
    (hfq : '"' ∉ f) (hbq : '"' ∉ b) (hfc : ',' ∉ f) (hbc : ',' ∉ b)
    (hft : trim f = f) (hbt : trim b = b) :
    parseQuotedLine (f ++ ',' :: b) = some ⟨f, b, CardType.term⟩ := by
  have hscan := scanMatches_plain_pair hf hb hfq hbq hfc hbc
  have hclean1 : cleanVal f = f :=
    cleanVal_plain (head_ne_of_not_mem hfc) hfq hft
  have hclean2 : cleanVal (',' :: b) = b := by
    rw [cleanVal_comma b (head_ne_of_not_mem hbc)]
    exact cleanVal_plain (head_ne_of_not_mem hbc) hbq hbt
  unfold parseQuotedLine
  rw [hscan]
  norm_num [hclean1, hclean2, hf, hb]

lemma nl_not_mem_simple_row {f b : List Char} (hf : '\n' ∉ f) (hb : '\n' ∉ b) :
    '\n' ∉ f ++ ',' :: b := by
  intro hm
  rcases List.mem_append.mp hm with h1 | h1
  · exact hf h1
  · rcases List.mem_cons.mp h1 with h1 | h1
    · exact absurd h1 (by decide)
    · exact hb h1

lemma parseCSV_simple_rows (rows : List (List Char × List Char))
    (h : ∀ p ∈ rows,
      (p.1 ≠ [] ∧ p.2 ≠ []) ∧ ('\n' ∉ p.1 ∧ '\n' ∉ p.2) ∧ ('"' ∉ p.1 ∧ '"' ∉ p.2) ∧
      (',' ∉ p.1 ∧ ',' ∉ p.2) ∧ (trim p.1 = p.1 ∧ trim p.2 = p.2)) :
    parseCSV_simple (joinWith ['\n'] (rows.map (fun p => p.1 ++ ',' :: p.2))) =
      rows.map (fun p => ⟨p.1, p.2, CardType.term⟩) := by
  cases rows with
  | nil => rfl
  | cons q rows' =>
    unfold parseCSV_simple
    rw [splitNl_joinWith ((q :: rows').map (fun p => p.1 ++ ',' :: p.2)) (by simp)
      (by
        intro l hl
        rcases List.mem_map.mp hl with ⟨p, hp, rfl⟩
        exact nl_not_mem_simple_row ((h p hp).2.1).1 ((h p hp).2.1).2)]
    rw [List.filter_eq_self.mpr (by
      intro l hl
      rcases List.mem_map.mp hl with ⟨p, hp, rfl⟩
      have htrim : trim (p.1 ++ ',' :: p.2) = p.1 ++ ',' :: p.2 :=
        trim_append_comma ((h p hp).1).1 ((h p hp).1).2
          (trimLeft_eq_self_of_trim ((h p hp).2.2.2.2).1)
          (trimRight_eq_self_of_trim ((h p hp).2.2.2.2).2)
      rw [decide_eq_true_eq, htrim]
      simp [((h p hp).1).1])]
    rw [List.filterMap_map]
    exact filterMap_eq_map_of_some (fun p hp =>
      parseSimpleLine_plain ((h p hp).1).1 ((h p hp).1).2
        ((h p hp).2.2.2.1).1 ((h p hp).2.2.2.1).2
        ((h p hp).2.2.2.2).1 ((h p hp).2.2.2.2).2)

lemma parseCSV_quoted_header_rows (hdr : List Char) (rows : List (List Char × List Char))
    (hh1 : '\n' ∉ hdr) (hh2 : trim hdr ≠ [])
    (h : ∀ p ∈ rows,
      (p.1 ≠ [] ∧ p.2 ≠ []) ∧ ('\n' ∉ p.1 ∧ '\n' ∉ p.2) ∧ ('"' ∉ p.1 ∧ '"' ∉ p.2) ∧
      (',' ∉ p.1 ∧ ',' ∉ p.2) ∧ (trim p.1 = p.1 ∧ trim p.2 = p.2)) :
    parseCSV_quoted (joinWith ['\n'] (hdr :: rows.map (fun p => p.1 ++ ',' :: p.2))) =
      rows.map (fun p => ⟨p.1, p.2, CardType.term⟩) := by
  unfold parseCSV_quoted
  rw [splitNl_joinWith (hdr :: rows.map (fun p => p.1 ++ ',' :: p.2)) (by simp)
    (by
      intro l hl
      rcases List.mem_cons.mp hl with hl | hl
      · subst hl; exact hh1
      · rcases List.mem_map.mp hl with ⟨p, hp, rfl⟩
        exact nl_not_mem_simple_row ((h p hp).2.1).1 ((h p hp).2.1).2)]
  rw [List.filter_eq_self.mpr (by
    intro l hl
    rcases List.mem_cons.mp hl with hl | hl
    · subst hl
      exact decide_eq_true hh2
    · rcases List.mem_map.mp hl with ⟨p, hp, rfl⟩
      have htrim : trim (p.1 ++ ',' :: p.2) = p.1 ++ ',' :: p.2 :=
        trim_append_comma ((h p hp).1).1 ((h p hp).1).2
          (trimLeft_eq_self_of_trim ((h p hp).2.2.2.2).1)
          (trimRight_eq_self_of_trim ((h p hp).2.2.2.2).2)
      rw [decide_eq_true_eq, htrim]
      simp [((h p hp).1).1])]
  rw [List.drop_succ_cons, List.drop_zero, List.filterMap_map]
  exact filterMap_eq_map_of_some (fun p hp =>
    parseQuotedLine_plain ((h p hp).1).1 ((h p hp).1).2
      ((h p hp).2.2.1).1 ((h p hp).2.2.1).2
      ((h p hp).2.2.2.1).1 ((h p hp).2.2.2.1).2
      ((h p hp).2.2.2.2).1 ((h p hp).2.2.2.2).2)

/-- C9 counterexample: the two `parseCSV` implementations are not equivalent.
On the input `"a,b"` the csvUtils.ts parser returns one card (a, b, term)
while the part_000 parser, which skips the first line as a header, returns
no cards. -/
theorem parseCSV_versions_disagree :
    parseCSV_simple ("a,b".toList) ≠ parseCSV_quoted ("a,b".toList) := by
  decide

/-- C9 amended: the two parsers agree only modulo the header row and only on
simple rows. For any header line (newline-free, not blank) and any rows built
as `front ++ "," ++ back` from fields that are nonempty, contain no newline,
double quote or comma, and carry no surrounding whitespace, the part_000
parser applied to the header-prefixed text returns the same sequence as the
csvUtils.ts parser applied to the rows alone (all with card_type `term`). -/
theorem parseCSV_versions_agree_on_simple_rows (hdr : List Char)
    (rows : List (List Char × List Char))
    (hh1 : '\n' ∉ hdr) (hh2 : trim hdr ≠ [])
    (h : ∀ p ∈ rows,
      (p.1 ≠ [] ∧ p.2 ≠ []) ∧ ('\n' ∉ p.1 ∧ '\n' ∉ p.2) ∧ ('"' ∉ p.1 ∧ '"' ∉ p.2) ∧
      (',' ∉ p.1 ∧ ',' ∉ p.2) ∧ (trim p.1 = p.1 ∧ trim p.2 = p.2)) :
    parseCSV_quoted (joinWith ['\n'] (hdr :: rows.map (fun p => p.1 ++ ',' :: p.2))) =
      parseCSV_simple (joinWith ['\n'] (rows.map (fun p => p.1 ++ ',' :: p.2))) := by
  rw [parseCSV_quoted_header_rows hdr rows hh1 hh2 h, parseCSV_simple_rows rows h]

theorem parseCSV_versions_agree_on_simple_rows_witness :
    (('\n' ∉ "Front,Back,Type".toList) ∧ trim "Front,Back,Type".toList ≠ [] ∧
      (∀ p ∈ [(("a".toList, "b".toList) : List Char × List Char)],
        (p.1 ≠ [] ∧ p.2 ≠ []) ∧ ('\n' ∉ p.1 ∧ '\n' ∉ p.2) ∧ ('"' ∉ p.1 ∧ '"' ∉ p.2) ∧
        (',' ∉ p.1 ∧ ',' ∉ p.2) ∧ (trim p.1 = p.1 ∧ trim p.2 = p.2))) ∧
    parseCSV_quoted (joinWith ['\n'] ("Front,Back,Type".toList ::
        [(("a".toList, "b".toList) : List Char × List Char)].map
          (fun p => p.1 ++ ',' :: p.2))) =
      parseCSV_simple (joinWith ['\n']
        ([(("a".toList, "b".toList) : List Char × List Char)].map
          (fun p => p.1 ++ ',' :: p.2))) :=
  ⟨by decide, parseCSV_versions_agree_on_simple_rows "Front,Back,Type".toList
    [("a".toList, "b".toList)] (by decide) (by decide) (by decide)⟩
